import Mathlib

/-!
Shallow embedding of the sandboxed tool-execution layer and agent loop of
the `agent-skills-go` repository.

The Go source is embedded as executable Lean definitions:

* pure Go string / `path/filepath` helpers (Unix rules) are re-implemented
  structurally over `List Char` so that every definition kernel-evaluates;
* the security layer (`security.go` / `command.go`): `normalizeAllowedDirs`,
  `validatePathWithAllowedDirs` (the `hasParentTraversal` revision),
  `isDangerousExecutable`, `isShellExecutable`, `containsBlockedShellSyntax`
  and `parseCommandLine`;
* process execution (`runCommand`) with the external subprocess outcome as an
  explicit oracle value;
* the tool registry (`Tools.Execute`), the `run_shell` tool
  (`pkg/agentskills/tools_runshell.go`) and the `write_file` tool, with
  `json.Unmarshal` of the argument text and the filesystem as explicit
  parameters;
* the agent loop (`AgentLoop.runIteration` / `AgentLoop.Run`) and the chat
  loop (`App.runChatLoop`), with the completion model as an oracle and the
  number of model round-trips made observable.
-/

deriving instance DecidableEq for Except

namespace AgentSkills

/-- Whether `pat` is a prefix of `cs` (Go `strings.HasPrefix` on runes). -/
def isPrefixChars : List Char → List Char → Bool
  | [], _ => true
  | _ :: _, [] => false
  | a :: as, b :: bs => if a = b then isPrefixChars as bs else false

/-- Whether `pat` occurs as a contiguous substring of the second list
(Go `strings.Contains`). -/
def containsSubChars (pat : List Char) : List Char → Bool
  | [] => isPrefixChars pat []
  | c :: rest => isPrefixChars pat (c :: rest) || containsSubChars pat rest

/-- Go `strings.Contains s sub`. -/
def strContains (s sub : String) : Bool :=
  containsSubChars sub.toList s.toList

/-- Go `strings.HasPrefix s pre`. -/
def strStartsWith (s pre : String) : Bool :=
  isPrefixChars pre.toList s.toList

/-- Split a character list on a separator character; mirrors Go
`strings.Split` with a one-character separator (empty pieces are kept). -/
def splitChars (sep : Char) : List Char → List (List Char)
  | [] => [[]]
  | c :: rest =>
    let r := splitChars sep rest
    if c = sep then [] :: r
    else
      match r with
      | [] => [[c]]
      | h :: t => (c :: h) :: t

/-- Go `strings.Split s (String.singleton sep)`. -/
def strSplit (sep : Char) (s : String) : List String :=
  (splitChars sep s.toList).map String.mk

/-- Join path elements with `/` (Go `strings.Join xs "/"`). -/
def joinSlash : List String → String
  | [] => ""
  | [s] => s
  | s :: rest => s ++ "/" ++ joinSlash rest

/-- Go `strings.Join xs sep`. -/
def joinWith (sep : String) : List String → String
  | [] => ""
  | [s] => s
  | s :: rest => s ++ sep ++ joinWith sep rest

/-- Go `strings.Join xs ", "`, used in the outside-allowed-dirs error. -/
def joinComma : List String → String :=
  joinWith ", "

/-- ASCII whitespace recognised by Go `unicode.IsSpace` (the Latin-1 cases
that can appear in the strings this code handles). -/
def isGoSpace (c : Char) : Bool :=
  if c = ' ' then true
  else if c = '\t' then true
  else if c = '\n' then true
  else if c = '\r' then true
  else if c = Char.ofNat 11 then true
  else if c = Char.ofNat 12 then true
  else false

/-- Go `strings.TrimSpace`. -/
def trimSpace (s : String) : String :=
  String.mk (((s.toList.dropWhile isGoSpace).reverse.dropWhile isGoSpace).reverse)

/-- Go `strings.ToLower`, restricted to ASCII (every name it is compared
against in this code is ASCII). -/
def toLowerAscii (s : String) : String :=
  String.mk (s.toList.map Char.toLower)

namespace Filepath

/-- Go `strings.Split(path, "/")` as used by `hasParentTraversal`. -/
def splitOnSlash (s : String) : List String :=
  strSplit '/' s

/-- One step of lexical cleaning: process the next path element against the
stack of output elements (held in reverse).  Mirrors the element cases of Go
`path/filepath.Clean` on Unix: empty and `.` elements are dropped, `..` pops
a non-`..` element, is dropped at the root, and is kept otherwise. -/
def cleanOp (rooted : Bool) (out : List String) (seg : String) : List String :=
  if seg = "" ∨ seg = "." then out
  else if seg = ".." then
    match out with
    | [] => if rooted then [] else [".."]
    | top :: rest => if top = ".." then ".." :: top :: rest else rest
  else seg :: out

/-- Go `path/filepath.Clean` (Unix separator). -/
def clean (path : String) : String :=
  if path = "" then "."
  else
    let rooted := strStartsWith path "/"
    let out := ((splitOnSlash path).foldl (cleanOp rooted) []).reverse
    let joined := joinSlash out
    if rooted then "/" ++ joined
    else if joined = "" then "." else joined

/-- Go `path/filepath.IsAbs` (Unix). -/
def isAbs (path : String) : Bool :=
  strStartsWith path "/"

/-- Go `path/filepath.Abs` with the process working directory `cwd` made an
explicit parameter: `Clean(path)` when absolute, else `Join(cwd, path)`. -/
def abs (cwd path : String) : String :=
  if isAbs path then clean path else clean (cwd ++ "/" ++ path)

/-- Go `path/filepath.Base` (Unix): strip trailing slashes, keep the last
element, with the `""` and all-slashes special cases. -/
def base (path : String) : String :=
  if path = "" then "."
  else
    let b := ((path.toList.reverse.dropWhile (fun c => c = '/')).takeWhile
      (fun c => ¬ c = '/')).reverse
    if b = [] then "/" else String.mk b

/-- Path elements of a cleaned path (`[]` for `/` and for `.`), dropping the
leading slash of a rooted path.  Used by the embedding of `filepath.Rel`. -/
def segmentsOfClean (p : String) : List String :=
  if p = "/" ∨ p = "." then []
  else if strStartsWith p "/" then splitOnSlash (String.mk (p.toList.drop 1))
  else splitOnSlash p

/-- Drop the common leading elements of two segment lists; returns the two
remainders (the first differing elements onward, as in the scan loop of Go
`filepath.Rel`). -/
def dropCommonLead : List String → List String → List String × List String
  | b :: bs, t :: ts => if b = t then dropCommonLead bs ts else (b :: bs, t :: ts)
  | bs, ts => (bs, ts)

/-- Go `path/filepath.Rel` on Unix, expressed on path elements: clean both
paths, require equal rootedness, strip the common element prefix, go up with
one `..` per remaining base element, then down the remaining target
elements.  `none` is the error return. -/
def rel (basepath targpath : String) : Option String :=
  let b := clean basepath
  let t := clean targpath
  if t = b then some "."
  else if ¬ (strStartsWith b "/" = strStartsWith t "/") then none
  else
    let (brem, trem) := dropCommonLead (segmentsOfClean b) (segmentsOfClean t)
    match brem with
    | [] => some (joinSlash trem)
    | bh :: _ =>
      if bh = ".." then none
      else some (joinSlash (List.replicate brem.length ".." ++ trem))

end Filepath

/-- Lexicographic byte order on strings (UTF-8 byte order coincides with
code-point order), as used by Go `slices.Sort` on `[]string`. -/
def charListLe : List Char → List Char → Bool
  | [], _ => true
  | _ :: _, [] => false
  | a :: as, b :: bs => if a = b then charListLe as bs else decide (a.toNat < b.toNat)

/-- Insert into a sorted list of strings, preserving order. -/
def insertSortedStr (s : String) : List String → List String
  | [] => [s]
  | t :: rest =>
    if charListLe s.toList t.toList then s :: t :: rest
    else t :: insertSortedStr s rest

/-- Ascending sort of a string list (Go `slices.Sort`). -/
def sortStrings : List String → List String
  | [] => []
  | s :: rest => insertSortedStr s (sortStrings rest)

/-- Go `normalizeAllowedDirs` (`security.go`): trim each entry, drop empties,
make absolute and clean, deduplicate keeping first occurrences, then sort.
The working directory used by `filepath.Abs` is the explicit `cwd`. -/
def normalizeAllowedDirs (allowedDirs : List String) (cwd : String) : List String :=
  let step := fun (st : List String × List String) (dir : String) =>
    let d := trimSpace dir
    if d = "" then st
    else
      let a := Filepath.clean (Filepath.abs cwd d)
      if st.1.any (fun x => x = a) then st else (a :: st.1, st.2 ++ [a])
  sortStrings (allowedDirs.foldl step ([], [])).2

/-- Go `hasParentTraversal` (`command.go`): the cleaned path is `..` or has a
`..` element. -/
def hasParentTraversal (cleanPath : String) : Bool :=
  if cleanPath = ".." then true
  else (Filepath.splitOnSlash cleanPath).any (fun part => part = "..")

/-- The per-root acceptance test of `validatePathWithAllowedDirs`: the
relative form of the path is `.`, or neither starts with `../` nor is `..`.
A `filepath.Rel` error means the root is skipped. -/
def rootAccepts (root absP : String) : Bool :=
  match Filepath.rel root absP with
  | none => false
  | some r =>
    if r = "." then true
    else if strStartsWith r "../" then false
    else if r = ".." then false
    else true

/-- Go `validatePathWithAllowedDirs` (the `command.go` revision that checks
`hasParentTraversal` on the cleaned path): reject empty paths, reject parent
traversal after lexical cleaning, compute the absolute path, accept
unconditionally when no allowed roots are configured, else accept exactly
when some normalized root accepts the path. -/
def validatePathWithAllowedDirs (path : String) (allowedDirs : List String)
    (cwd : String) : Except String String :=
  if path = "" then .error "path cannot be empty"
  else
    let cleanPath := Filepath.clean path
    if hasParentTraversal cleanPath then
      .error ("path traversal not allowed: " ++ path)
    else
      let absP := Filepath.abs cwd cleanPath
      let roots := normalizeAllowedDirs allowedDirs cwd
      if roots = [] then .ok absP
      else if roots.any (fun root => rootAccepts root absP) then .ok absP
      else .error ("path outside allowed directories: " ++ absP ++
        " (allowed: " ++ joinComma roots ++ ")")

/-- Go `validatePath`: a blank allowed directory means no restriction. -/
def validatePath (path allowedDir cwd : String) : Except String String :=
  if trimSpace allowedDir = "" then validatePathWithAllowedDirs path [] cwd
  else validatePathWithAllowedDirs path [allowedDir] cwd

/-- Go `validateWorkingDirWithAllowedDirs`: an empty working directory is
valid and means inheriting the current directory. -/
def validateWorkingDirWithAllowedDirs (workingDir : String)
    (allowedDirs : List String) (cwd : String) : Except String String :=
  if workingDir = "" then .ok ""
  else validatePathWithAllowedDirs workingDir allowedDirs cwd

/-- The denylist of destructive executables (`command.go`
`dangerousCommands`, map keys in source order). -/
def dangerousCommands : List String :=
  ["rm", "rmdir", "dd", "mkfs", "fdisk", "shutdown", "reboot", "halt",
   "poweroff", "init", "killall", "kill", "pkill", "killall5",
   "chmod", "chown", "chgrp", "mount", "umount", "parted", "sfdisk",
   "wipefs", "mkfs.ext", "mkfs.vfat", "mkfs.ntfs", "mkfs.ext2",
   "mkfs.ext3", "mkfs.ext4", "mkfs.xfs", "mkfs.btrfs"]

/-- Shell interpreters blocked to prevent nested shells (`shellExecutables`). -/
def shellExecutables : List String :=
  ["sh", "bash", "zsh", "dash", "fish"]

/-- Go `isDangerousExecutable`: lower-cased base name of the trimmed
executable path is looked up in the denylist. -/
def isDangerousExecutable (executable : String) : Bool :=
  let baseCmd := toLowerAscii (Filepath.base (trimSpace executable))
  if baseCmd = "" then false
  else dangerousCommands.any (fun d => d = baseCmd)

/-- Go `isShellExecutable`. -/
def isShellExecutable (executable : String) : Bool :=
  let baseCmd := toLowerAscii (Filepath.base (trimSpace executable))
  if baseCmd = "" then false
  else shellExecutables.any (fun d => d = baseCmd)

/-- The blocked shell control tokens of `containsBlockedShellSyntax`, in
source order. -/
def blockedShellTokens : List String :=
  ["&&", "||", ";", "|", ">", "<", "`", "$(", "\n", "\r"]

/-- Go `containsBlockedShellSyntax`: the first blocked token occurring in
the command, if any. -/
def blockedShellSyntaxHit (command : String) : Option String :=
  blockedShellTokens.find? (fun token => strContains command token)

/-- Tokenizer state of `parseCommandLine`. -/
structure ParseSt where
  args : List String
  current : List Char
  inSingle : Bool
  inDouble : Bool
  escaped : Bool
deriving DecidableEq

/-- Emit the pending token if non-empty (the `flush` closure). -/
def parseFlush (st : ParseSt) : ParseSt :=
  if st.current = [] then st
  else { st with args := st.args ++ [String.mk st.current], current := [] }

/-- One rune of `parseCommandLine`: backslash escapes outside single quotes,
single and double quote toggling, and unquoted space/tab separation. -/
def parseStep (st : ParseSt) (r : Char) : ParseSt :=
  if st.escaped then { st with current := st.current ++ [r], escaped := false }
  else if r = '\\' ∧ st.inSingle = false then { st with escaped := true }
  else if r = '\'' ∧ st.inDouble = false then { st with inSingle := !st.inSingle }
  else if r = '"' ∧ st.inSingle = false then { st with inDouble := !st.inDouble }
  else if (r = ' ' ∨ r = '\t') ∧ st.inSingle = false ∧ st.inDouble = false then
    parseFlush st
  else { st with current := st.current ++ [r] }

/-- Go `parseCommandLine`: split a command string into argv without invoking
a shell; trailing escapes and unterminated quotes are errors. -/
def parseCommandLine (input : String) : Except String (List String) :=
  let st := input.toList.foldl parseStep ⟨[], [], false, false, false⟩
  if st.escaped then .error "unterminated escape in command"
  else if st.inSingle ∨ st.inDouble then .error "unterminated quote in command"
  else .ok (parseFlush st).args

/-- JSON string escaping as done by Go `encoding/json` for the characters
that can occur here (quote, backslash, control characters, and the
HTML-escaped `<`, `>`, `&`). -/
def jsonEscapeChar (c : Char) : List Char :=
  if c = '"' then ['\\', '"']
  else if c = '\\' then ['\\', '\\']
  else if c = '\n' then ['\\', 'n']
  else if c = '\r' then ['\\', 'r']
  else if c = '\t' then ['\\', 't']
  else if c = '<' then "\\u003c".toList
  else if c = '>' then "\\u003e".toList
  else if c = '&' then "\\u0026".toList
  else [c]

/-- A JSON string literal for `s` (Go `encoding/json` encoding of a string
value). -/
def jsonString (s : String) : String :=
  "\"" ++ String.mk (s.toList.flatMap jsonEscapeChar) ++ "\""

/-- Go `fmt` `%q` formatting of a string (double-quoted Go syntax), for the
printable-ASCII and simple-escape characters used by this code. -/
def goQuote (s : String) : String :=
  "\"" ++ String.mk (s.toList.flatMap (fun c =>
    if c = '"' then ['\\', '"']
    else if c = '\\' then ['\\', '\\']
    else if c = '\n' then ['\\', 'n']
    else if c = '\r' then ['\\', 'r']
    else if c = '\t' then ['\\', 't']
    else [c])) ++ "\""

/-- The `toolResponse` wrapper sent back to the model (`tools.go`).  `data`
holds the already-encoded JSON payload; `none` is Go's nil `interface{}`.
`err` is `""` when absent (Go omitempty). -/
structure ToolResponse where
  ok : Bool
  tool : String
  data : Option String
  err : String
deriving DecidableEq

/-- Go `json.Marshal` of a `toolResponse` value: fields in declaration order
`ok`, `tool`, `data`, `error`, the last three with omitempty. -/
def encodeToolResponse (r : ToolResponse) : String :=
  "\x7b\"ok\":" ++ (if r.ok then "true" else "false")
  ++ (if r.tool = "" then "" else ",\"tool\":" ++ jsonString r.tool)
  ++ (match r.data with
      | none => ""
      | some d => ",\"data\":" ++ d)
  ++ (if r.err = "" then "" else ",\"error\":" ++ jsonString r.err)
  ++ "\x7d"

/-- Go `marshalToolResponse` (`tools.go`): wrap tool output or an error into
the envelope.  `json.Marshal` cannot fail on these values, so the Go
`(string, error)` pair is always the `ok` branch here. -/
def marshalToolResponse (tool : String) (data : Option String)
    (err : Option String) : Except String String :=
  .ok (encodeToolResponse
    { ok := err.isNone, tool := tool, data := data, err := err.getD "" })

/-- The failure envelope a tool returns: `ok:false` with an error message. -/
def rejectEnvelope (tool msg : String) : String :=
  encodeToolResponse { ok := false, tool := tool, data := none, err := msg }

/-- The success envelope a tool returns: `ok:true` with a JSON payload. -/
def okEnvelope (tool payload : String) : String :=
  encodeToolResponse { ok := true, tool := tool, data := some payload, err := "" }

/-- Go `commandResult` (`command.go`): execution metadata and output. -/
structure CommandResult where
  command : String
  args : List String
  workingDir : String
  exitCode : Int
  stdout : String
  stderr : String
  durationMs : Int
  error : String
deriving DecidableEq

/-- The outcome of `cmd.Run()` for the spawned process, the external input
to `runCommand`: success, an `*exec.ExitError` with its `ExitCode()` and
message, a context deadline (timeout), or another launch error. -/
inductive RunOutcome where
  | success
  | exitError (code : Int) (msg : String)
  | deadline (msg : String)
  | other (msg : String)
deriving DecidableEq

/-- The exit-code mapping of `runCommand`: 0 on success, the `ExitError`
code for ordinary failures, the sentinel -1 for timeouts and launch
failures. -/
def runExitCode : RunOutcome → Int
  | .success => 0
  | .exitError code _ => code
  | .deadline _ => -1
  | .other _ => -1

/-- The error text recorded by `runCommand` (`err.Error()`, empty on
success). -/
def runErrText : RunOutcome → String
  | .success => ""
  | .exitError _ msg => msg
  | .deadline msg => msg
  | .other msg => msg

/-- Go `runCommand` (`command.go`): normalize a non-positive timeout to 60
seconds, run the process (its outcome, captured output and duration are
explicit oracle inputs), and encode the outcome in the returned
`commandResult` rather than as a call failure. -/
def runCommand (command : String) (args : List String) (workingDir : String)
    (timeoutSeconds : Int) (outcome : RunOutcome)
    (stdout stderr : String) (durationMs : Int) : CommandResult :=
  let _effectiveTimeout : Int := if timeoutSeconds ≤ 0 then 60 else timeoutSeconds
  { command := command, args := args, workingDir := workingDir,
    exitCode := runExitCode outcome, stdout := stdout, stderr := stderr,
    durationMs := durationMs, error := runErrText outcome }

/-- Decimal rendering of an `Int` (Go `%d`). -/
def intDec (i : Int) : String := toString i

/-- Go `json.Marshal` of a `commandResult`: `command`, then omitempty
`args`, `working_dir`, then `exit_code`, omitempty `stdout`, `stderr`, then
`duration_ms`, omitempty `error`. -/
def encodeCommandResult (r : CommandResult) : String :=
  "\x7b\"command\":" ++ jsonString r.command
  ++ (if r.args = [] then ""
      else ",\"args\":[" ++ joinWith "," (r.args.map jsonString) ++ "]")
  ++ (if r.workingDir = "" then "" else ",\"working_dir\":" ++ jsonString r.workingDir)
  ++ ",\"exit_code\":" ++ intDec r.exitCode
  ++ (if r.stdout = "" then "" else ",\"stdout\":" ++ jsonString r.stdout)
  ++ (if r.stderr = "" then "" else ",\"stderr\":" ++ jsonString r.stderr)
  ++ ",\"duration_ms\":" ++ intDec r.durationMs
  ++ (if r.error = "" then "" else ",\"error\":" ++ jsonString r.error)
  ++ "\x7d"

/-- The decoded `run_shell` arguments (`tools_runshell.go`). -/
structure RunShellArgs where
  command : String
  workingDir : String
  timeoutSeconds : Int
deriving DecidableEq

/-- What `runShellTool.execute` decides before any process could start:
either reject with an error message for the envelope, or spawn an
executable with arguments, validated working directory and timeout. -/
inductive RunShellAction where
  | reject (msg : String)
  | spawn (exe : String) (args : List String) (workingDir : String)
      (timeoutSeconds : Int)
deriving DecidableEq

/-- The guard pipeline of `runShellTool.execute`
(`pkg/agentskills/tools_runshell.go`), up to the `runCommand` call: argument
decoding errors (the outcome of `json.Unmarshal` is the explicit `parsed`
input), the required `command`, blocked shell syntax, tokenization, empty
argv, working-directory validation, the shell-interpreter rule and the
denylist rule, in source order. -/
def runShellDecision (parsed : Except String RunShellArgs)
    (allowedDirs : List String) (cwd : String) : RunShellAction :=
  match parsed with
  | .error e => .reject e
  | .ok args =>
    if args.command = "" then .reject "command is required"
    else
      match blockedShellSyntaxHit args.command with
      | some token => .reject ("shell control syntax not allowed: " ++ goQuote token)
      | none =>
        match parseCommandLine args.command with
        | .error e => .reject ("invalid command: " ++ e)
        | .ok argv =>
          match argv with
          | [] => .reject "command is required"
          | exe :: rest =>
            match validateWorkingDirWithAllowedDirs args.workingDir allowedDirs cwd with
            | .error e => .reject ("working directory validation failed: " ++ e)
            | .ok validatedWorkingDir =>
              if isShellExecutable exe then
                .reject ("shell executables are not allowed: " ++ exe)
              else if isDangerousExecutable exe then
                .reject ("dangerous command not allowed: " ++ exe)
              else .spawn exe rest validatedWorkingDir args.timeoutSeconds

/-- Go `runShellTool.execute`: act on the decision, marshalling either the
failure envelope or the `commandResult` of the spawned process.  `runner`
is the `toolContext.runCommand` dependency. -/
def runShellExecute (parsed : Except String RunShellArgs)
    (allowedDirs : List String) (cwd : String)
    (runner : String → List String → String → Int → CommandResult) :
    Except String String :=
  match runShellDecision parsed allowedDirs cwd with
  | .reject msg => .ok (rejectEnvelope "run_shell" msg)
  | .spawn exe args wd t => .ok (okEnvelope "run_shell" (encodeCommandResult (runner exe args wd t)))

/-- Lookup of a registered tool by name (the `tools` map of `Tools`). -/
def lookupTool (registry : List (String × (String → Except String String)))
    (name : String) : Option (String → Except String String) :=
  match registry with
  | [] => none
  | (n, f) :: rest => if n = name then some f else lookupTool rest name

/-- Go `Tools.Execute` (`tools.go`): return a cancellation envelope when the
surrounding context is already done, an unknown-tool envelope when the name
is not registered, else dispatch to the tool. -/
def toolsExecute (ctxCancelled : Bool) (ctxErr : String)
    (registry : List (String × (String → Except String String)))
    (callName callArgs : String) : Except String String :=
  if ctxCancelled then marshalToolResponse callName none (some ctxErr)
  else
    match lookupTool registry callName with
    | none => marshalToolResponse callName none (some ("unknown tool: " ++ callName))
    | some f => f callArgs

/-- The filesystem as a finite map from validated absolute paths to file
contents, the state `write_file` acts on. -/
def FS := List (String × String)

/-- Content of a file, `none` when `os.Stat` fails with not-exists. -/
def fsGet : FS → String → Option String
  | [], _ => none
  | (q, w) :: rest, p => if q = p then some w else fsGet rest p

/-- Whether `os.Stat` succeeds on the path. -/
def fsExists (fs : FS) (p : String) : Bool :=
  (fsGet fs p).isSome

/-- Effect of `os.WriteFile`: create or truncate-and-replace. -/
def fsSet : FS → String → String → FS
  | [], p, v => [(p, v)]
  | (q, w) :: rest, p, v =>
    if q = p then (p, v) :: rest else (q, w) :: fsSet rest p v

/-- The decoded `write_file` arguments; `overwrite` defaults to false when
absent in the JSON. -/
structure WriteFileArgs where
  path : String
  content : String
  overwrite : Bool
deriving DecidableEq

/-- UTF-8 byte length (Go `len` on a string). -/
def utf8Len (s : String) : Nat :=
  s.toList.foldl (fun n c =>
    n + (if c.toNat < 0x80 then 1
         else if c.toNat < 0x800 then 2
         else if c.toNat < 0x10000 then 3
         else 4)) 0

/-- The `write_file` success payload `{path, bytes}`. -/
def encodeWritePayload (path : String) (bytes : Nat) : String :=
  "\x7b\"path\":" ++ jsonString path ++ ",\"bytes\":" ++ Nat.repr bytes ++ "\x7d"

/-- Go `WriteFileTool.Execute` (single allowed directory revision): decode
errors and a missing path are failure envelopes; the path is validated; with
`overwrite` unset an existing file is a `file exists` failure; otherwise
parent directories are created (always succeeds in this model, which tracks
only files) and the content is written.  Returns the updated filesystem and
the envelope. -/
def writeFileExecute (parsed : Except String WriteFileArgs)
    (allowedDir : String) (cwd : String) (fs : FS) : FS × Except String String :=
  match parsed with
  | .error e => (fs, .ok (rejectEnvelope "write_file" e))
  | .ok args =>
    if args.path = "" then (fs, .ok (rejectEnvelope "write_file" "path is required"))
    else
      match validatePath args.path allowedDir cwd with
      | .error e =>
        (fs, .ok (rejectEnvelope "write_file" ("path validation failed: " ++ e)))
      | .ok validatedPath =>
        if args.overwrite = false ∧ fsExists fs validatedPath then
          (fs, .ok (rejectEnvelope "write_file" ("file exists: " ++ validatedPath)))
        else
          (fsSet fs validatedPath args.content,
           .ok (okEnvelope "write_file"
             (encodeWritePayload validatedPath (utf8Len args.content))))

/-- A tool call requested by the completion model. -/
structure ToolCall where
  id : String
  name : String
  arguments : String
deriving DecidableEq

/-- An assistant message from the completion model: text content and the
tool calls it requests (none means the message is final). -/
structure ModelMessage where
  content : String
  toolCalls : List ToolCall
deriving DecidableEq

/-- The outcome of one completion request (`runOnce` / `runChatOnce`):
either a request failure or empty choices, collapsed to an error string as
in the source, or the first choice's message. -/
inductive ModelOutcome where
  | failure (e : String)
  | reply (m : ModelMessage)
deriving DecidableEq

/-- A message of the conversation history. -/
inductive Msg where
  | system (content : String)
  | user (content : String)
  | assistant (m : ModelMessage)
  | toolResult (output : String) (callId : String)
deriving DecidableEq

/-- Go `appendToolResponses` (`agent_loop`) and the tool-call branch of
`runChatLoop`: execute each requested call in order through the registry and
append one tool message per call; a hard error from `Execute` is rendered as
the inline `{"ok":false,"error":%q}` fallback, never surfaced. -/
def appendToolResponses (execTool : ToolCall → Except String String)
    (messages : List Msg) (toolCalls : List ToolCall) : List Msg :=
  toolCalls.foldl (fun acc call =>
    let output :=
      match execTool call with
      | .ok out => out
      | .error e => "\x7b\"ok\":false,\"error\":" ++ goQuote e ++ "\x7d"
    acc ++ [.toolResult output call.id]) messages

/-- The turn loop of Go `AgentLoop.runIteration`: `fuel` is the number of
turns still allowed and `calls` counts completed model round-trips.  Each
turn sends the current history to the model; a model failure aborts, a reply
without tool calls is the final message, otherwise the assistant message and
the tool results are appended and the next turn runs.  Exhausted fuel is the
max-turns error. -/
def runIterationGo (runOnce : List Msg → ModelOutcome)
    (execTool : ToolCall → Except String String) :
    List Msg → Nat → Nat → Except String ModelMessage × Nat
  | _, 0, calls =>
    (.error "max turns reached before assistant produced a final response", calls)
  | cur, fuel + 1, calls =>
    match runOnce cur with
    | .failure e => (.error e, calls + 1)
    | .reply m =>
      if m.toolCalls = [] then (.ok m, calls + 1)
      else
        runIterationGo runOnce execTool
          (appendToolResponses execTool (cur ++ [.assistant m]) m.toolCalls)
          fuel (calls + 1)

/-- Go `AgentLoop.runIteration`: run up to `maxTurns` turns (a non-positive
budget runs zero turns, as the `for` loop does).  The second component is
the number of model round-trips performed. -/
def runIteration (runOnce : List Msg → ModelOutcome)
    (execTool : ToolCall → Except String String)
    (messages : List Msg) (maxTurns : Int) : Except String ModelMessage × Nat :=
  runIterationGo runOnce execTool messages maxTurns.toNat 0

/-- The conversation state owned by `AgentLoop`. -/
structure AgentState where
  history : List Msg
  maxTurns : Int
deriving DecidableEq

/-- Go `AgentLoop.Run`: trim the input and require it non-empty, append the
user message, run the iteration; on error truncate the history back to its
previous length and surface the error, on success append the final
assistant message. -/
def agentRun (runOnce : List Msg → ModelOutcome)
    (execTool : ToolCall → Except String String)
    (st : AgentState) (userInput : String) :
    AgentState × Except String ModelMessage :=
  let input := trimSpace userInput
  if input = "" then (st, .error "user input is required")
  else
    let previousLen := st.history.length
    let appended := st.history ++ [Msg.user input]
    match (runIteration runOnce execTool appended st.maxTurns).1 with
    | .error e => ({ st with history := appended.take previousLen }, .error e)
    | .ok finalMessage =>
      ({ st with history := appended ++ [Msg.assistant finalMessage] }, .ok finalMessage)

/-- The turn loop of Go `App.runChatLoop`
(`pkg/agentskills/chat_loop.go`), non-streaming semantics: track the last
non-blank assistant content; a reply without tool calls returns the updated
history and the final content; tool calls are executed and appended; when
the budget runs out the loop errors only if no content was ever seen.  On a
model failure the ORIGINAL message list is returned.  The second component
counts model round-trips. -/
def runChatLoopGo (runOnce : List Msg → ModelOutcome)
    (execTool : ToolCall → Except String String) (original : List Msg) :
    List Msg → String → Nat → Nat → (List Msg × Except String String) × Nat
  | cur, lastContent, 0, calls =>
    if lastContent = "" then
      ((original, .error "max turns reached without assistant content"), calls)
    else ((cur, .ok lastContent), calls)
  | cur, lastContent, fuel + 1, calls =>
    match runOnce cur with
    | .failure e => ((original, .error e), calls + 1)
    | .reply m =>
      let last := if ¬ trimSpace m.content = "" then m.content else lastContent
      if m.toolCalls = [] then
        let final := if last = "" then m.content else last
        ((cur ++ [.assistant m], .ok final), calls + 1)
      else
        runChatLoopGo runOnce execTool original
          (appendToolResponses execTool (cur ++ [.assistant m]) m.toolCalls)
          last fuel (calls + 1)

/-- Go `App.runChatLoop`: a non-positive `maxTurns` is silently clamped to
1, then the turn loop runs. -/
def runChatLoop (runOnce : List Msg → ModelOutcome)
    (execTool : ToolCall → Except String String)
    (messages : List Msg) (maxTurns : Int) :
    (List Msg × Except String String) × Nat :=
  let mt : Int := if maxTurns ≤ 0 then 1 else maxTurns
  runChatLoopGo runOnce execTool messages messages "" mt.toNat 0

/-- Go `config.Normalize` restricted to the turn budget: a non-positive
`MaxTurns` becomes 1. -/
def normalizeMaxTurns (maxTurns : Int) : Int :=
  if maxTurns ≤ 0 then 1 else maxTurns

-- Behavioural checks of the filepath embedding against documented Go outputs.
example : Filepath.clean "a/../../etc" = "../etc" := by decide
example : Filepath.clean "/a/../../etc" = "/etc" := by decide
example : Filepath.clean "a..b.txt" = "a..b.txt" := by decide
example : Filepath.clean "" = "." := by decide
example : Filepath.clean "/" = "/" := by decide
example : Filepath.clean "./a//b/./c/.." = "a/b" := by decide
example : Filepath.base "/usr/bin/rm" = "rm" := by decide
example : Filepath.base "rm" = "rm" := by decide
example : Filepath.base "///" = "/" := by decide
example : Filepath.base "" = "." := by decide
example : Filepath.abs "/wd" "x/y" = "/wd/x/y" := by decide
example : Filepath.abs "/wd" "/x" = "/x" := by decide
example : Filepath.rel "/s" "/s/a..b.txt" = some "a..b.txt" := by decide
example : Filepath.rel "/s" "/s" = some "." := by decide
example : Filepath.rel "/s/t" "/s/u/v" = some "../u/v" := by decide
example : Filepath.rel "/s" "/etc/passwd" = some "../etc/passwd" := by decide

-- Behavioural checks of the security layer against the repository's tests.
example : validatePathWithAllowedDirs "../../etc/passwd" ["/s"] "/s" =
    .error "path traversal not allowed: ../../etc/passwd" := by decide
example : validatePathWithAllowedDirs "/s/../../etc/passwd" ["/s"] "/s" =
    .error "path outside allowed directories: /etc/passwd (allowed: /s)" := by decide
example : validatePathWithAllowedDirs "a..b.txt" ["/s"] "/s" = .ok "/s/a..b.txt" := by
  decide
example : validatePathWithAllowedDirs "/tmp/test.txt" [] "/s" = .ok "/tmp/test.txt" := by
  decide
example : (validatePathWithAllowedDirs "/tmp/x" ["/s"] "/s").isOk = false := by decide
example : validatePathWithAllowedDirs "" ["/s"] "/s" = .error "path cannot be empty" := by
  decide
example : isDangerousExecutable "/usr/bin/rm" = true := by decide
example : isDangerousExecutable "RM" = true := by decide
example : isDangerousExecutable "echo" = false := by decide
example : isShellExecutable "bash" = true := by decide
example : blockedShellSyntaxHit "echo hello; rm -rf /tmp/test" = some ";" := by decide
example : blockedShellSyntaxHit "echo hello" = none := by decide
example : parseCommandLine "rm -rf /tmp/test" = .ok ["rm", "-rf", "/tmp/test"] := by
  decide
example : parseCommandLine "echo 'a b' \"c d\"" = .ok ["echo", "a b", "c d"] := by decide
example : parseCommandLine "echo \\" = .error "unterminated escape in command" := by
  decide
example : parseCommandLine "echo 'x" = .error "unterminated quote in command" := by
  decide

-- Behavioural checks of the tool layer.
example : runShellDecision (.ok ⟨"rm -rf /tmp/test", "", 0⟩) [] "/" =
    .reject "dangerous command not allowed: rm" := by decide
example : runShellDecision (.ok ⟨"bash -lc 'echo hello'", "", 0⟩) [] "/" =
    .reject "shell executables are not allowed: bash" := by decide
example : runShellDecision (.ok ⟨"echo hello; ls", "", 0⟩) [] "/" =
    .reject "shell control syntax not allowed: \";\"" := by decide
example : runShellDecision (.ok ⟨"ls -la", "", 0⟩) [] "/" =
    .spawn "ls" ["-la"] "" 0 := by decide
example : rejectEnvelope "run_shell" "command is required" =
    "\x7b\"ok\":false,\"tool\":\"run_shell\",\"error\":\"command is required\"\x7d" := by
  decide
example : encodeCommandResult (runCommand "ls" ["-la"] "" 0 (.exitError 2 "exit status 2") "" "err" 5) =
    "\x7b\"command\":\"ls\",\"args\":[\"-la\"],\"exit_code\":2,\"stderr\":\"err\",\"duration_ms\":5,\"error\":\"exit status 2\"\x7d" := by
  decide

/-- C1: every input path whose lexical cleaning still contains a `..` path
segment is rejected by `validatePathWithAllowedDirs` with the traversal
error, for any allowed-roots configuration (including zero roots) and any
working directory; an accepted absolute path is never returned. -/
theorem validate_rejects_traversal (path : String) (allowedDirs : List String)
    (cwd : String) (h : hasParentTraversal (Filepath.clean path) = true) :
    validatePathWithAllowedDirs path allowedDirs cwd =
      .error ("path traversal not allowed: " ++ path) := by
  have hne : ¬ path = "" := by
    intro he
    rw [he] at h
    exact absurd h (by decide)
  simp [validatePathWithAllowedDirs, hne, h]

/-- Witness for C1 at the spec's own example `a/../../etc`, with zero
allowed roots, and again under one allowed root. -/
theorem validate_rejects_traversal_w :
    hasParentTraversal (Filepath.clean "a/../../etc") = true ∧
    validatePathWithAllowedDirs "a/../../etc" [] "/wd" =
      .error "path traversal not allowed: a/../../etc" ∧
    validatePathWithAllowedDirs "a/../../etc" ["/s"] "/wd" =
      .error "path traversal not allowed: a/../../etc" :=
  ⟨by decide,
   validate_rejects_traversal "a/../../etc" [] "/wd" (by decide),
   validate_rejects_traversal "a/../../etc" ["/s"] "/wd" (by decide)⟩

/-- C4: a path containing `..` merely as a substring, with no `..` segment
after cleaning, validates successfully to its absolute form whenever some
normalized allowed root accepts it. -/
theorem validate_accepts_dotted_filename (path : String)
    (allowedDirs : List String) (cwd : String)
    (hsub : strContains path ".." = true)
    (hseg : hasParentTraversal (Filepath.clean path) = false)
    (hroot : (normalizeAllowedDirs allowedDirs cwd).any
      (fun root => rootAccepts root (Filepath.abs cwd (Filepath.clean path))) = true) :
    validatePathWithAllowedDirs path allowedDirs cwd =
      .ok (Filepath.abs cwd (Filepath.clean path)) := by
  have hne : ¬ path = "" := by
    intro he
    rw [he] at hsub
    exact absurd hsub (by decide)
  unfold validatePathWithAllowedDirs
  rw [if_neg hne]
  simp only [hseg, if_false, Bool.false_eq_true]
  split <;> simp [hroot]

/-- Witness for C4 at the spec's own example `a..b.txt` inside allowed root
`/s`. -/
theorem validate_accepts_dotted_filename_w :
    strContains "a..b.txt" ".." = true ∧
    hasParentTraversal (Filepath.clean "a..b.txt") = false ∧
    validatePathWithAllowedDirs "a..b.txt" ["/s"] "/s" = .ok "/s/a..b.txt" :=
  ⟨by decide, by decide,
   validate_accepts_dotted_filename "a..b.txt" ["/s"] "/s"
     (by decide) (by decide) (by decide)⟩

/-- Helper: the empty command tokenizes to an empty argv. -/
theorem parseCommandLine_empty : parseCommandLine "" = .ok [] := by decide

/-- C2: when the command tokenizes to an argv whose first token is a
denylisted executable (matching is case-insensitive and ignores any
directory prefix, as `isDangerousExecutable` lower-cases the base name),
`runShellTool.execute` never reaches its `runCommand` call — the decision is
always a rejection — and when no earlier rule fires the rejection carries
the dangerous-command error naming the executable. -/
theorem dangerous_executable_never_spawns (args : RunShellArgs)
    (exe : String) (rest : List String)
    (hparse : parseCommandLine args.command = .ok (exe :: rest))
    (hdanger : isDangerousExecutable exe = true)
    (allowedDirs : List String) (cwd : String) :
    (∃ msg, runShellDecision (.ok args) allowedDirs cwd = .reject msg) ∧
    (blockedShellSyntaxHit args.command = none →
      ∀ wd, validateWorkingDirWithAllowedDirs args.workingDir allowedDirs cwd = .ok wd →
      isShellExecutable exe = false →
      runShellDecision (.ok args) allowedDirs cwd =
        .reject ("dangerous command not allowed: " ++ exe)) := by
  have hcmd : ¬ args.command = "" := by
    intro he
    rw [he, parseCommandLine_empty] at hparse
    injection hparse with h1
    exact List.cons_ne_nil exe rest h1.symm
  constructor
  · cases hhit : blockedShellSyntaxHit args.command with
    | some tok =>
      exact ⟨"shell control syntax not allowed: " ++ goQuote tok,
        by simp [runShellDecision, hcmd, hhit]⟩
    | none =>
      cases hwd : validateWorkingDirWithAllowedDirs args.workingDir allowedDirs cwd with
      | error e =>
        exact ⟨"working directory validation failed: " ++ e,
          by simp [runShellDecision, hcmd, hhit, hparse, hwd]⟩
      | ok wd =>
        by_cases hsh : isShellExecutable exe = true
        · exact ⟨"shell executables are not allowed: " ++ exe,
            by simp [runShellDecision, hcmd, hhit, hparse, hwd, hsh]⟩
        · exact ⟨"dangerous command not allowed: " ++ exe,
            by simp [runShellDecision, hcmd, hhit, hparse, hwd, hsh, hdanger]⟩
  · intro hhit wd hwd hsh
    simp [runShellDecision, hcmd, hhit, hparse, hwd, hsh, hdanger]

/-- Witness for C2: `/usr/bin/RM -rf /tmp` — a directory prefix and upper
case — is rejected with the dangerous-command error. -/
theorem dangerous_executable_never_spawns_w :
    parseCommandLine "/usr/bin/RM -rf /tmp" = .ok ["/usr/bin/RM", "-rf", "/tmp"] ∧
    isDangerousExecutable "/usr/bin/RM" = true ∧
    runShellDecision (.ok ⟨"/usr/bin/RM -rf /tmp", "", 0⟩) [] "/wd" =
      .reject "dangerous command not allowed: /usr/bin/RM" :=
  ⟨by decide, by decide,
   (dangerous_executable_never_spawns ⟨"/usr/bin/RM -rf /tmp", "", 0⟩
     "/usr/bin/RM" ["-rf", "/tmp"] (by decide) (by decide) [] "/wd").2
     (by decide) "" (by decide) (by decide)⟩

/-- C3: a `run_shell` command containing any of the claim's shell control
tokens is rejected by the shell-syntax rule — the decision is a rejection
carrying the blocked-syntax error, the tool returns an `ok:false` envelope,
and no process is started — regardless of the first token's executable. -/
theorem blocked_syntax_rejects (args : RunShellArgs) (tok : String)
    (htok : tok ∈ ["&&", "||", ";", "|", ">", "<", "$(", "`"])
    (hin : strContains args.command tok = true)
    (allowedDirs : List String) (cwd : String) :
    ∃ found, blockedShellSyntaxHit args.command = some found ∧
      runShellDecision (.ok args) allowedDirs cwd =
        .reject ("shell control syntax not allowed: " ++ goQuote found) ∧
      ∀ runner, runShellExecute (.ok args) allowedDirs cwd runner =
        .ok (rejectEnvelope "run_shell"
          ("shell control syntax not allowed: " ++ goQuote found)) := by
  have hne : ¬ args.command = "" := by
    intro he
    rw [he] at hin
    fin_cases htok <;> exact absurd hin (by decide)
  have hmem : tok ∈ blockedShellTokens := by
    fin_cases htok <;> decide
  have hsome : (blockedShellTokens.find?
      (fun token => strContains args.command token)).isSome := by
    rw [List.find?_isSome]
    exact ⟨tok, hmem, hin⟩
  cases hfound : blockedShellSyntaxHit args.command with
  | none =>
    rw [blockedShellSyntaxHit] at hfound
    rw [hfound] at hsome
    exact absurd hsome (by decide)
  | some found =>
    refine ⟨found, rfl, ?_, ?_⟩
    · simp [runShellDecision, hne, hfound]
    · intro runner
      simp [runShellExecute, runShellDecision, hne, hfound]

/-- Witness for C3: `echo hi && ls` is rejected with the blocked token
`&&` even though `echo` itself is permitted. -/
theorem blocked_syntax_rejects_w :
    strContains "echo hi && ls" "&&" = true ∧
    ∃ found, blockedShellSyntaxHit "echo hi && ls" = some found ∧
      runShellDecision (.ok ⟨"echo hi && ls", "", 0⟩) [] "/wd" =
        .reject ("shell control syntax not allowed: " ++ goQuote found) ∧
      ∀ runner, runShellExecute (.ok ⟨"echo hi && ls", "", 0⟩) [] "/wd" runner =
        .ok (rejectEnvelope "run_shell"
          ("shell control syntax not allowed: " ++ goQuote found)) :=
  ⟨by decide,
   blocked_syntax_rejects ⟨"echo hi && ls", "", 0⟩ "&&"
     (by decide) (by decide) [] "/wd"⟩

/-- Helper: against a model that always requests a tool call, the turn loop
consumes all of its fuel, performing one model round-trip per unit of fuel,
and ends in the max-turns error. -/
theorem runIterationGo_exhausts (runOnce : List Msg → ModelOutcome)
    (execTool : ToolCall → Except String String)
    (halways : ∀ hist, ∃ m, runOnce hist = .reply m ∧ ¬ m.toolCalls = []) :
    ∀ (fuel : Nat) (cur : List Msg) (calls : Nat),
      runIterationGo runOnce execTool cur fuel calls =
        (.error "max turns reached before assistant produced a final response",
         calls + fuel) := by
  intro fuel
  induction fuel with
  | zero => intro cur calls; simp [runIterationGo]
  | succ n ih =>
    intro cur calls
    obtain ⟨m, hm, hmt⟩ := halways cur
    rw [runIterationGo, hm]
    simp only [if_neg hmt, ih]
    have harith : calls + 1 + n = calls + (n + 1) := by omega
    rw [harith]

/-- C5: with a turn budget of N ≥ 1 and a model that requests at least one
tool call on every response, `AgentLoop.runIteration` performs exactly N
model round-trips — never N+1 — and returns the budget-exhausted error
instead of a final message. -/
theorem run_budget_exhausted (runOnce : List Msg → ModelOutcome)
    (execTool : ToolCall → Except String String)
    (messages : List Msg) (N : Nat) (hN : 1 ≤ N)
    (halways : ∀ hist, ∃ m, runOnce hist = .reply m ∧ ¬ m.toolCalls = []) :
    runIteration runOnce execTool messages (N : Int) =
      (.error "max turns reached before assistant produced a final response",
       N) := by
  unfold runIteration
  rw [runIterationGo_exhausts runOnce execTool halways]
  simp

/-- Witness for C5 with budget 2 and a model that always asks to run a
tool. -/
theorem run_budget_exhausted_w :
    (1 : Nat) ≤ 2 ∧
    runIteration (fun _ => .reply ⟨"", [⟨"c1", "run_shell", "\x7b\x7d"⟩]⟩)
        (fun _ => .ok "out") [Msg.system "s"] (2 : Int) =
      (.error "max turns reached before assistant produced a final response",
       2) :=
  ⟨by decide,
   run_budget_exhausted (fun _ => .reply ⟨"", [⟨"c1", "run_shell", "\x7b\x7d"⟩]⟩)
     (fun _ => .ok "out") [Msg.system "s"] 2 (by decide)
     (fun _ => ⟨⟨"", [⟨"c1", "run_shell", "\x7b\x7d"⟩]⟩, rfl, by decide⟩)⟩

/-- C6: when the iteration after appending the trimmed user message ends in
any orchestration error (model failure, empty response, or budget
exhaustion all surface as that error value), `AgentLoop.Run` rolls the
history back so the state is exactly the pre-call state, and returns the
error to the caller. -/
theorem run_rolls_back_on_error (runOnce : List Msg → ModelOutcome)
    (execTool : ToolCall → Except String String)
    (st : AgentState) (userInput : String) (e : String)
    (hne : ¬ trimSpace userInput = "")
    (herr : (runIteration runOnce execTool
      (st.history ++ [Msg.user (trimSpace userInput)]) st.maxTurns).1 =
        .error e) :
    agentRun runOnce execTool st userInput = (st, .error e) := by
  unfold agentRun
  rw [if_neg hne]
  simp only [herr]
  rw [List.take_left]

/-- Witness for C6: a failing model leaves the one-message history intact
and surfaces the failure. -/
theorem run_rolls_back_on_error_w :
    ¬ trimSpace "  hi  " = "" ∧
    agentRun (fun _ => .failure "request failed") (fun _ => .ok "out")
        ⟨[Msg.system "s"], 3⟩ "  hi  " =
      (⟨[Msg.system "s"], 3⟩, .error "request failed") :=
  ⟨by decide,
   run_rolls_back_on_error (fun _ => .failure "request failed")
     (fun _ => .ok "out") ⟨[Msg.system "s"], 3⟩ "  hi  " "request failed"
     (by decide) (by decide)⟩

/-- Helper: a successful tool lookup names a registered tool. -/
theorem lookupTool_mem (registry : List (String × (String → Except String String)))
    (name : String) (f : String → Except String String)
    (h : lookupTool registry name = some f) : ∃ n, (n, f) ∈ registry := by
  induction registry with
  | nil => exact absurd h (by simp [lookupTool])
  | cons hd tl ih =>
    obtain ⟨n, g⟩ := hd
    rw [lookupTool] at h
    by_cases hn : n = name
    · rw [if_pos hn] at h
      injection h with h1
      exact ⟨n, by rw [h1]; exact List.mem_cons_self _ _⟩
    · rw [if_neg hn] at h
      obtain ⟨n', hm⟩ := ih h
      exact ⟨n', List.mem_cons_of_mem _ hm⟩

/-- C7: tool dispatch always answers with a well-formed envelope and never
raises to the loop: provided every registered tool returns an encoded
envelope (as the embedded tools do), `Tools.Execute` returns an encoded
envelope in every case; an already-cancelled context and an unknown tool
name yield the specific `ok:false` envelopes, and for the `run_shell` tool
malformed JSON arguments and any validation rejection also yield `ok:false`
envelopes. -/
theorem tools_execute_always_envelope
    (registry : List (String × (String → Except String String)))
    (hreg : ∀ p ∈ registry, ∀ a, ∃ r : ToolResponse,
      p.2 a = .ok (encodeToolResponse r))
    (cancelled : Bool) (ctxErr : String) (callName callArgs : String) :
    (∃ r : ToolResponse, toolsExecute cancelled ctxErr registry callName callArgs =
        .ok (encodeToolResponse r)) ∧
    (cancelled = true →
      toolsExecute cancelled ctxErr registry callName callArgs =
        .ok (rejectEnvelope callName ctxErr)) ∧
    (cancelled = false → lookupTool registry callName = none →
      toolsExecute cancelled ctxErr registry callName callArgs =
        .ok (rejectEnvelope callName ("unknown tool: " ++ callName))) ∧
    (∀ e allowedDirs cwd runner,
      runShellExecute (.error e) allowedDirs cwd runner =
        .ok (rejectEnvelope "run_shell" e)) ∧
    (∀ args allowedDirs cwd runner msg,
      runShellDecision (.ok args) allowedDirs cwd = .reject msg →
      runShellExecute (.ok args) allowedDirs cwd runner =
        .ok (rejectEnvelope "run_shell" msg)) := by
  refine ⟨?_, ?_, ?_, ?_, ?_⟩
  · cases cancelled with
    | true =>
      exact ⟨⟨false, callName, none, ctxErr⟩, rfl⟩
    | false =>
      cases hl : lookupTool registry callName with
      | none =>
        exact ⟨⟨false, callName, none, "unknown tool: " ++ callName⟩,
          by simp [toolsExecute, hl, marshalToolResponse]⟩
      | some f =>
        obtain ⟨n, hm⟩ := lookupTool_mem registry callName f hl
        obtain ⟨r, hr⟩ := hreg (n, f) hm callArgs
        exact ⟨r, by simp [toolsExecute, hl]; exact hr⟩
  · intro hc
    subst hc
    rfl
  · intro hc hl
    subst hc
    simp [toolsExecute, hl, marshalToolResponse, rejectEnvelope]
  · intro e allowedDirs cwd runner
    rfl
  · intro args allowedDirs cwd runner msg hd
    simp [runShellExecute, hd]

/-- Witness for C7: cancellation, an unknown tool, and malformed `run_shell`
arguments each produce their `ok:false` envelope. -/
theorem tools_execute_always_envelope_w :
    toolsExecute true "context canceled" [] "read_file" "\x7b\x7d" =
      .ok (rejectEnvelope "read_file" "context canceled") ∧
    toolsExecute false "context canceled" [] "no_such_tool" "\x7b\x7d" =
      .ok (rejectEnvelope "no_such_tool" "unknown tool: no_such_tool") ∧
    runShellExecute (.error "unexpected end of JSON input") [] "/wd"
        (fun e a w t => runCommand e a w t .success "" "" 0) =
      .ok (rejectEnvelope "run_shell" "unexpected end of JSON input") :=
  ⟨(tools_execute_always_envelope [] (by simp) true "context canceled"
      "read_file" "\x7b\x7d").2.1 rfl,
   (tools_execute_always_envelope [] (by simp) false "context canceled"
      "no_such_tool" "\x7b\x7d").2.2.1 rfl rfl,
   (tools_execute_always_envelope [] (by simp) false "context canceled"
      "no_such_tool" "\x7b\x7d").2.2.2.1 "unexpected end of JSON input" [] "/wd"
      (fun e a w t => runCommand e a w t .success "" "" 0)⟩

/-- C8: once the guards pass and a process is spawned, the `run_shell`
envelope keeps `ok:true` and encodes the failure inside the
`commandResult`: an ordinary non-zero exit reports the actual exit code and
the process error text, and a timeout reports the sentinel -1 together with
its error string. -/
theorem runshell_failure_in_payload (args : RunShellArgs)
    (allowedDirs : List String) (cwd : String)
    (exe : String) (argv : List String) (wd : String) (t : Int)
    (hspawn : runShellDecision (.ok args) allowedDirs cwd = .spawn exe argv wd t)
    (outcome : RunOutcome) (stdout stderr : String) (durationMs : Int) :
    runShellExecute (.ok args) allowedDirs cwd
        (fun e a w tm => runCommand e a w tm outcome stdout stderr durationMs) =
      .ok (okEnvelope "run_shell"
        (encodeCommandResult
          (runCommand exe argv wd t outcome stdout stderr durationMs))) ∧
    (∀ c m, outcome = .exitError c m →
      (runCommand exe argv wd t outcome stdout stderr durationMs).exitCode = c ∧
      (runCommand exe argv wd t outcome stdout stderr durationMs).error = m) ∧
    (∀ m, outcome = .deadline m →
      (runCommand exe argv wd t outcome stdout stderr durationMs).exitCode = -1 ∧
      (runCommand exe argv wd t outcome stdout stderr durationMs).error = m) := by
  refine ⟨?_, ?_, ?_⟩
  · simp [runShellExecute, hspawn]
  · intro c m hout
    subst hout
    exact ⟨rfl, rfl⟩
  · intro m hout
    subst hout
    exact ⟨rfl, rfl⟩

/-- Witness for C8: `ls -la` spawns; a timeout outcome keeps `ok:true` with
exit code -1 and the deadline message inside the payload. -/
theorem runshell_failure_in_payload_w :
    runShellDecision (.ok ⟨"ls -la", "", 0⟩) [] "/wd" = .spawn "ls" ["-la"] "" 0 ∧
    runShellExecute (.ok ⟨"ls -la", "", 0⟩) [] "/wd"
        (fun e a w tm => runCommand e a w tm
          (.deadline "context deadline exceeded") "" "" 60000) =
      .ok (okEnvelope "run_shell"
        (encodeCommandResult (runCommand "ls" ["-la"] "" 0
          (.deadline "context deadline exceeded") "" "" 60000))) ∧
    (runCommand "ls" ["-la"] "" 0
      (.deadline "context deadline exceeded") "" "" 60000).exitCode = -1 := by
  have h := runshell_failure_in_payload ⟨"ls -la", "", 0⟩ [] "/wd"
    "ls" ["-la"] "" 0 (by decide) (.deadline "context deadline exceeded") "" "" 60000
  exact ⟨by decide, h.1, (h.2.2 "context deadline exceeded" rfl).1⟩

/-- Helper: a written file reads back as written. -/
theorem fsGet_fsSet_self (fs : FS) (p v : String) :
    fsGet (fsSet fs p v) p = some v := by
  induction fs with
  | nil => simp [fsSet, fsGet]
  | cons hd tl ih =>
    obtain ⟨q, w⟩ := hd
    by_cases h : q = p
    · simp [fsSet, fsGet, h]
    · simp [fsSet, fsGet, h, ih]

/-- Helper: an empty path never validates. -/
theorem validatePath_empty (allowedDir cwd : String) (vp : String) :
    ¬ validatePath "" allowedDir cwd = .ok vp := by
  intro h
  unfold validatePath at h
  split at h <;> exact absurd h (by simp [validatePathWithAllowedDirs])

/-- C9: writing a fresh validated path with `overwrite=false` succeeds, and
a second `write_file` to the same path with `overwrite=false` fails with
the file-exists envelope while leaving the filesystem — in particular the
first call's content — unchanged. -/
theorem write_twice_no_overwrite (path allowedDir cwd content1 content2 : String)
    (vp : String) (fs : FS)
    (hval : validatePath path allowedDir cwd = .ok vp)
    (hnew : fsExists fs vp = false) :
    writeFileExecute (.ok ⟨path, content1, false⟩) allowedDir cwd fs =
      (fsSet fs vp content1,
       .ok (okEnvelope "write_file" (encodeWritePayload vp (utf8Len content1)))) ∧
    writeFileExecute (.ok ⟨path, content2, false⟩) allowedDir cwd
        (fsSet fs vp content1) =
      (fsSet fs vp content1,
       .ok (rejectEnvelope "write_file" ("file exists: " ++ vp))) ∧
    fsGet (fsSet fs vp content1) vp = some content1 := by
  have hpath : ¬ path = "" := by
    intro he
    rw [he] at hval
    exact validatePath_empty allowedDir cwd vp hval
  have hexists : fsExists (fsSet fs vp content1) vp = true := by
    simp [fsExists, fsGet_fsSet_self]
  refine ⟨?_, ?_, fsGet_fsSet_self fs vp content1⟩
  · simp [writeFileExecute, hpath, hval, hnew]
  · simp [writeFileExecute, hpath, hval, hexists]

/-- Witness for C9 at `notes.txt` under allowed root `/s`. -/
theorem write_twice_no_overwrite_w :
    validatePath "/s/notes.txt" "/s" "/s" = .ok "/s/notes.txt" ∧
    fsExists [] "/s/notes.txt" = false ∧
    writeFileExecute (.ok ⟨"/s/notes.txt", "hi", false⟩) "/s" "/s" [] =
      ([("/s/notes.txt", "hi")],
       .ok (okEnvelope "write_file" (encodeWritePayload "/s/notes.txt" 2))) ∧
    writeFileExecute (.ok ⟨"/s/notes.txt", "bye", false⟩) "/s" "/s"
        [("/s/notes.txt", "hi")] =
      ([("/s/notes.txt", "hi")],
       .ok (rejectEnvelope "write_file" "file exists: /s/notes.txt")) ∧
    fsGet [("/s/notes.txt", "hi")] "/s/notes.txt" = some "hi" := by
  have h := write_twice_no_overwrite "/s/notes.txt" "/s" "/s" "hi" "bye"
    "/s/notes.txt" [] (by decide) (by decide)
  exact ⟨by decide, by decide, h.1, h.2.1, h.2.2⟩

/-- Helper: with one unit of fuel the chat-loop turn loop performs exactly
one model round-trip, whatever the model answers. -/
theorem runChatLoopGo_one_call (runOnce : List Msg → ModelOutcome)
    (execTool : ToolCall → Except String String) (original : List Msg)
    (cur : List Msg) (lastContent : String) (calls : Nat) :
    (runChatLoopGo runOnce execTool original cur lastContent 1 calls).2 =
      calls + 1 := by
  rw [runChatLoopGo]
  cases runOnce cur with
  | failure e => rfl
  | reply m =>
    by_cases hm : m.toolCalls = []
    · simp [hm]
    · simp only [if_neg hm]
      rw [runChatLoopGo]
      split <;> split <;> rfl

/-- C10: a zero or negative requested turn budget is silently clamped to 1
by `runChatLoop` (and by `config.Normalize`): the loop behaves exactly as
with budget 1 and performs exactly one model round-trip, for every model
and tool behaviour, rather than rejecting the call or doing zero turns. -/
theorem chatloop_clamps_budget (runOnce : List Msg → ModelOutcome)
    (execTool : ToolCall → Except String String)
    (messages : List Msg) (maxTurns : Int) (h : maxTurns ≤ 0) :
    runChatLoop runOnce execTool messages maxTurns =
      runChatLoop runOnce execTool messages 1 ∧
    (runChatLoop runOnce execTool messages maxTurns).2 = 1 ∧
    normalizeMaxTurns maxTurns = 1 := by
  have hclamp : runChatLoop runOnce execTool messages maxTurns =
      runChatLoop runOnce execTool messages 1 := by
    unfold runChatLoop
    rw [if_pos h, if_neg (by decide : ¬ (1 : Int) ≤ 0)]
  refine ⟨hclamp, ?_, by simp [normalizeMaxTurns, h]⟩
  rw [hclamp]
  unfold runChatLoop
  rw [if_neg (by decide : ¬ (1 : Int) ≤ 0)]
  exact runChatLoopGo_one_call runOnce execTool messages messages "" 0

/-- Witness for C10 with a zero budget and a model that immediately answers. -/
theorem chatloop_clamps_budget_w :
    runChatLoop (fun _ => .reply ⟨"done", []⟩) (fun _ => .ok "out")
        [Msg.system "s"] 0 =
      runChatLoop (fun _ => .reply ⟨"done", []⟩) (fun _ => .ok "out")
        [Msg.system "s"] 1 ∧
    (runChatLoop (fun _ => .reply ⟨"done", []⟩) (fun _ => .ok "out")
        [Msg.system "s"] 0).2 = 1 ∧
    normalizeMaxTurns 0 = 1 :=
  chatloop_clamps_budget (fun _ => .reply ⟨"done", []⟩) (fun _ => .ok "out")
    [Msg.system "s"] 0 (by decide)

end AgentSkills
